import Mathlib

/-!
Verification of the UMLS code-set-builder client.

This file gives a shallow embedding, in Lean 4, of the core logic of the
code-set builder: the hierarchy walker with its visited-set cycle guard and
its RxNorm flat mode, the source-code-to-CUI reconciler, the build pipeline
of the component (standard-vocabulary gate, target-vocabulary fetch,
hierarchical expansion, RxNorm-to-NDC mapping and the final Map-based
deduplication), the API layer (ancestors/descendants pagination and the
404-to-empty normalization), the RxNorm name parser for dose form and
strength, and the export filter of the build view.

Strings are embedded as lists of characters (type Str) so that every
definition is executable inside the kernel.  JavaScript truthiness on
strings (undefined and the empty string are both falsy) is modelled by
letting the empty list stand for an absent or empty string, and the
JavaScript expression a-or-b on strings is modelled by jsOr.  The
remote services are modelled as pure oracle functions supplied as an
environment, and the unbounded recursion of the walker is modelled with a
fuel parameter together with a proof that a computable bound on the fuel
suffices for any finite descendant graph.
-/

namespace Mcsbumls

/-- Strings of the embedded program: lists of characters. -/
abbrev Str := List Char

/-- Conversion from Lean string literals into the embedding. -/
def str (s : String) : Str := s.data

/-- JavaScript string disjunction a-or-b: the empty string is falsy. -/
def jsOr (a b : Str) : Str := if a = [] then b else a

/-- Boolean prefix test on embedded strings. -/
def isPrefixL : Str → Str → Bool
  | [], _ => true
  | _ :: _, [] => false
  | p :: ps, c :: cs => p = c && isPrefixL ps cs

/-- JavaScript String.startsWith. -/
def startsWithL (s p : Str) : Bool := isPrefixL p s

/-- JavaScript String.includes: substring containment. -/
def hasSub : Str → Str → Bool
  | [], pat => isPrefixL pat []
  | s@(_ :: rest), pat => isPrefixL pat s || hasSub rest pat

/-- JavaScript String.toLowerCase, ASCII case folding. -/
def toLowerL (s : Str) : Str := s.map Char.toLower

/-- JavaScript String.split on a single separator character. -/
def splitOnChar (sep : Char) : Str → List Str
  | [] => [[]]
  | c :: cs =>
    let rest := splitOnChar sep cs
    if c = sep then [] :: rest
    else match rest with
      | [] => [[c]]
      | r :: rs => (c :: r) :: rs

/-- The last element of a JavaScript split: urlParts[urlParts.length - 1]. -/
def lastSegment (s : Str) : Str := (splitOnChar '/' s).getLastD []

/-- JavaScript String.trim. -/
def trimL (s : Str) : Str :=
  ((s.dropWhile Char.isWhitespace).reverse.dropWhile Char.isWhitespace).reverse

/-- Code extraction used on descendant codes: if the code field is a URL,
the last path segment is the code (source: getAllDescendantsFromSourceCode). -/
def extractCode (s : Str) : Str :=
  if startsWithL s (str "http") then lastSegment s else s

/-! The hierarchy walker (getAllDescendantsFromSourceCode) -/

/-- A descendant node as returned by the descendants API: fields ui, code,
name and termType, where the empty string stands for an absent field. -/
structure DescNode where
  ui : Str
  code : Str
  name : Str
  termType : Str
deriving DecidableEq

/-- One emitted source-code record of the walker:
vocabulary, code, term, termType. -/
structure SrcRec where
  vocabulary : Str
  code : Str
  term : Str
  termType : Str
deriving DecidableEq

/-- The outcome of a walker run: the emitted records, the visited set
(a list without duplicates, newest first) and the trace of codes passed to
the descendants gateway, in call order. -/
structure WalkOut where
  recs : List SrcRec
  visited : List Str
  trace : List Str
deriving DecidableEq

/-- The gateway for descendant fetches: a pure oracle from vocabulary and
code to either an error or the list of immediate descendants. -/
abbrev DescGw := Str → Str → Except Unit (List DescNode)

/-- The loop over the immediate descendants inside
getAllDescendantsFromSourceCode: extract each source code, skip it when
empty or already visited, emit it and recurse into it (the recursive call
is the function argument f, instantiated with the walker itself at the
remaining fuel). -/
def walkChildren (vocab : Str) (f : Str → List Str → Option WalkOut) :
    List DescNode → List Str → Option WalkOut
  | [], visited => some ⟨[], visited, []⟩
  | d :: ds, visited =>
    let descCode := extractCode (jsOr d.ui d.code)
    if descCode = [] then walkChildren vocab f ds visited
    else if visited.contains descCode then walkChildren vocab f ds visited
    else
      match f descCode visited with
      | none => none
      | some child =>
        match walkChildren vocab f ds child.visited with
        | none => none
        | some rest =>
          some ⟨⟨vocab, descCode, d.name, d.termType⟩ :: child.recs ++ rest.recs,
                rest.visited, child.trace ++ rest.trace⟩

/-- Shallow embedding of getAllDescendantsFromSourceCode.  The fuel
parameter stands for the call stack of the source recursion; walkFuel
returns none when the fuel runs out, and a computable fuel bound is
proved sufficient for any finite graph below.  The
RXNORM branch is flat: one gateway call, no recursion, the visited set
untouched.  The recursive branch guards on the visited set, registers the
code, fetches the immediate descendants (an error is caught and yields no
records) and then emits and recurses into each not-yet-visited child. -/
def walkFuel (gw : DescGw) (vocab : Str) : Nat → Str → List Str → Option WalkOut
  | 0, _, _ => none
  | fuel + 1, code, visited =>
    if vocab = str "RXNORM" then
      match gw vocab code with
      | .error _ => some ⟨[], visited, [code]⟩
      | .ok descs =>
        some ⟨descs.map (fun d => ⟨vocab, jsOr d.code d.ui, d.name, d.termType⟩),
              visited, [code]⟩
    else if visited.contains code then
      some ⟨[], visited, []⟩
    else
      let visited1 := code :: visited
      match gw vocab code with
      | .error _ => some ⟨[], visited1, [code]⟩
      | .ok descs =>
        match walkChildren vocab (fun c v => walkFuel gw vocab fuel c v) descs visited1 with
        | none => none
        | some out => some ⟨out.recs, out.visited, code :: out.trace⟩

/-! Finite descendant graphs and cycle safety of the walker -/

/-- A finite descendant graph: an association list from a code to its list
of immediate descendant nodes.  Codes without an entry have no
descendants. -/
abbrev Graph := List (Str × List DescNode)

/-- Children lookup in a finite graph. -/
def lookupChildren (g : Graph) (c : Str) : List DescNode :=
  ((g.find? (fun p => p.1 == c)).map (fun p => p.2)).getD []

/-- The descendants gateway induced by a finite graph: never errors. -/
def gwOfGraph (g : Graph) : DescGw := fun _ c => .ok (lookupChildren g c)

/-- Every code that can ever be extracted from a child node of the graph. -/
def childCodes (g : Graph) : List Str :=
  ((g.map (fun p => p.2)).flatten).map (fun d => extractCode (jsOr d.ui d.code))

/-- How many potential child codes are not yet in the visited set. -/
def countNew (g : Graph) (visited : List Str) : Nat :=
  ((childCodes g).filter (fun c => ! visited.contains c)).length

/-- Fuel that is always sufficient for walkFuel on the graph g. -/
def fuelBound (g : Graph) : Nat := (childCodes g).length + 2

/-- Postcondition of one walker call: the visited set only grows, the
gateway-call trace has no duplicates, is fresh with respect to the
initial visited set and lands in the final visited set, the emitted codes
have no duplicates, are fresh (and distinct from the argument code) and
land in the final visited set, and the argument code itself is visited
afterwards. -/
def WalkPost (code : Str) (visited : List Str) (out : WalkOut) : Prop :=
  visited ⊆ out.visited ∧
  out.trace.Nodup ∧
  (∀ x ∈ out.trace, x ∉ visited ∧ x ∈ out.visited) ∧
  (out.recs.map SrcRec.code).Nodup ∧
  (∀ c ∈ out.recs.map SrcRec.code, c ∉ visited ∧ c ≠ code ∧ c ∈ out.visited) ∧
  code ∈ out.visited

/-- Postcondition of the children loop, analogous to WalkPost. -/
def ChildPost (visited : List Str) (out : WalkOut) : Prop :=
  visited ⊆ out.visited ∧
  out.trace.Nodup ∧
  (∀ x ∈ out.trace, x ∉ visited ∧ x ∈ out.visited) ∧
  (out.recs.map SrcRec.code).Nodup ∧
  (∀ c ∈ out.recs.map SrcRec.code, c ∉ visited ∧ c ∈ out.visited)

lemma filter_length_mono_pred {α : Type} {p q : α → Bool}
    (h : ∀ a, q a = true → p a = true) :
    ∀ l : List α, (l.filter q).length ≤ (l.filter p).length := by
  intro l
  induction l with
  | nil => simp
  | cons x xs ih =>
    by_cases hq : q x = true
    · have hp := h x hq
      simp only [List.filter, hq, hp, List.length_cons]
      omega
    · have hq2 : q x = false := by simpa using hq
      simp only [List.filter, hq2]
      cases hp : p x
      · exact ih
      · simp only [List.length_cons]; omega

lemma filter_length_lt_pred {α : Type} {p q : α → Bool}
    (h : ∀ a, q a = true → p a = true) {c : α}
    (hpc : p c = true) (hqc : q c = false) :
    ∀ {l : List α}, c ∈ l → (l.filter q).length < (l.filter p).length := by
  intro l hl
  induction l with
  | nil => simp at hl
  | cons x xs ih =>
    rcases List.mem_cons.mp hl with hx | hx
    · subst hx
      simp only [List.filter, hpc, hqc, List.length_cons]
      have := filter_length_mono_pred h xs
      omega
    · by_cases hq : q x = true
      · have hp := h x hq
        simp only [List.filter, hq, hp, List.length_cons]
        exact Nat.succ_lt_succ (ih hx)
      · have hq2 : q x = false := by simpa using hq
        simp only [List.filter, hq2]
        cases hp : p x
        · exact ih hx
        · simp only [List.length_cons]
          exact Nat.lt_succ_of_lt (ih hx)

lemma countNew_mono (g : Graph) {v v' : List Str} (h : v ⊆ v') :
    countNew g v' ≤ countNew g v := by
  apply filter_length_mono_pred
  intro a ha
  simp only [Bool.not_eq_true', ← Bool.not_eq_true] at ha ⊢
  simp only [List.contains, List.elem_iff] at ha ⊢
  exact fun hav => ha (h hav)

lemma countNew_cons_le (g : Graph) (c : Str) (v : List Str) :
    countNew g (c :: v) ≤ countNew g v :=
  countNew_mono g (List.subset_cons_self c v)

lemma countNew_cons_lt (g : Graph) {c : Str} {v : List Str}
    (hc : c ∈ childCodes g) (hv : c ∉ v) :
    countNew g (c :: v) < countNew g v := by
  apply filter_length_lt_pred (c := c) _ _ _ hc
  · intro a ha
    simp only [Bool.not_eq_true', ← Bool.not_eq_true] at ha ⊢
    simp only [List.contains, List.elem_iff, List.mem_cons] at ha ⊢
    exact fun hav => ha (Or.inr hav)
  · simp only [Bool.not_eq_true', ← Bool.not_eq_true]
    simp only [List.contains, List.elem_iff]
    simpa using hv
  · simp [List.contains, List.elem_iff]

lemma mem_childCodes_of_lookup {g : Graph} {d : DescNode} {code : Str}
    (h : d ∈ lookupChildren g code) :
    extractCode (jsOr d.ui d.code) ∈ childCodes g := by
  unfold lookupChildren at h
  cases hf : g.find? (fun p => p.1 == code) with
  | none => rw [hf] at h; simp at h
  | some pr =>
    rw [hf] at h
    simp at h
    have hpr : pr ∈ g := List.mem_of_find?_eq_some hf
    unfold childCodes
    apply List.mem_map_of_mem
    rw [List.mem_flatten]
    exact ⟨pr.2, List.mem_map_of_mem (fun p => p.2) hpr, h⟩

lemma children_spec (g : Graph) (vocab : Str) (n : Nat)
    (f : Str → List Str → Option WalkOut)
    (hf : ∀ code v, code ∈ childCodes g → code ∉ v → countNew g v < n →
      ∃ out, f code v = some out ∧ WalkPost code v out) :
    ∀ (ds : List DescNode) (visited : List Str),
      (∀ d ∈ ds, extractCode (jsOr d.ui d.code) ∈ childCodes g) →
      countNew g visited < n →
      ∃ out, walkChildren vocab f ds visited = some out ∧ ChildPost visited out := by
  intro ds
  induction ds with
  | nil =>
    intro visited _ _
    refine ⟨⟨[], visited, []⟩, rfl, fun x hx => hx, List.nodup_nil, ?_, List.nodup_nil, ?_⟩ <;> simp
  | cons d ds ih =>
    intro visited hds hcount
    by_cases hce : extractCode (jsOr d.ui d.code) = []
    · obtain ⟨out, hout, hpost⟩ :=
        ih visited (fun x hx => hds x (List.mem_cons_of_mem d hx)) hcount
      refine ⟨out, ?_, hpost⟩
      simpa [walkChildren, hce] using hout
    · by_cases hmem : extractCode (jsOr d.ui d.code) ∈ visited
      · obtain ⟨out, hout, hpost⟩ :=
          ih visited (fun x hx => hds x (List.mem_cons_of_mem d hx)) hcount
        refine ⟨out, ?_, hpost⟩
        simpa [walkChildren, hce, List.contains, List.elem_iff, hmem] using hout
      · have hcc : extractCode (jsOr d.ui d.code) ∈ childCodes g :=
          hds d (List.mem_cons_self d ds)
        obtain ⟨child, hfc, h1, h2, h3, h4, h5, h6⟩ := hf _ visited hcc hmem hcount
        have hcount2 : countNew g child.visited < n :=
          lt_of_le_of_lt (countNew_mono g h1) hcount
        obtain ⟨rest, hrest, r1, r2, r3, r4, r5⟩ :=
          ih child.visited (fun x hx => hds x (List.mem_cons_of_mem d hx)) hcount2
        refine ⟨⟨⟨vocab, extractCode (jsOr d.ui d.code), d.name, d.termType⟩ ::
                  child.recs ++ rest.recs, rest.visited, child.trace ++ rest.trace⟩, ?_, ?_⟩
        · simp [walkChildren, hce, List.contains, List.elem_iff, hmem, hfc, hrest]
        · refine ⟨h1.trans r1, ?_, ?_, ?_, ?_⟩
          · refine List.Nodup.append h2 r2 ?_
            intro x hxc hxr
            exact (r3 x hxr).1 ((h3 x hxc).2)
          · intro x hx
            rcases List.mem_append.mp hx with hx | hx
            · exact ⟨(h3 x hx).1, r1 (h3 x hx).2⟩
            · exact ⟨fun hv => (r3 x hx).1 (h1 hv), (r3 x hx).2⟩
          · simp only [List.map_cons, List.map_append]
            refine List.Nodup.cons ?_ (List.Nodup.append h4 r4 ?_)
            · intro hin
              rcases List.mem_append.mp hin with hin | hin
              · exact (h5 _ hin).2.1 rfl
              · exact (r5 _ hin).1 h6
            · intro e hec her
              exact (r5 e her).1 ((h5 e hec).2.2)
          · intro e he
            dsimp only at he ⊢
            simp only [List.map_append, List.map_cons, List.mem_append,
              List.mem_cons] at he
            rcases he with (he | he) | he
            · subst he; exact ⟨hmem, r1 h6⟩
            · exact ⟨(h5 e he).1, r1 (h5 e he).2.2⟩
            · exact ⟨fun hv => (r5 e he).1 (h1 hv), (r5 e he).2⟩

lemma walk_spec (g : Graph) (vocab : Str) (hvoc : ¬ vocab = str "RXNORM") :
    ∀ (fuel : Nat) (code : Str) (visited : List Str),
      ((code ∈ childCodes g ∧ code ∉ visited ∧ countNew g visited < fuel) ∨
        countNew g visited + 1 < fuel) →
      ∃ out, walkFuel (gwOfGraph g) vocab fuel code visited = some out ∧
        WalkPost code visited out := by
  intro fuel
  induction fuel with
  | zero =>
    intro code visited h
    rcases h with ⟨_, _, h⟩ | h <;> omega
  | succ fuel ih =>
    intro code visited h
    by_cases hmem : code ∈ visited
    · refine ⟨⟨[], visited, []⟩, ?_, fun x hx => hx, List.nodup_nil, by simp,
        List.nodup_nil, by simp, hmem⟩
      simp [walkFuel, hvoc, List.contains, List.elem_iff, hmem]
    · have hcnt1 : countNew g (code :: visited) < fuel := by
        rcases h with ⟨hcc, _, hlt⟩ | hlt
        · have h2 := countNew_cons_lt g hcc hmem; omega
        · have h2 := countNew_cons_le g code visited; omega
      obtain ⟨chOut, hch, s1, s2, s3, s4, s5⟩ :=
        children_spec g vocab fuel (fun c v => walkFuel (gwOfGraph g) vocab fuel c v)
          (fun c v hc hv hlt => ih c v (Or.inl ⟨hc, hv, hlt⟩))
          (lookupChildren g code) (code :: visited)
          (fun _ hd => mem_childCodes_of_lookup hd) hcnt1
      refine ⟨⟨chOut.recs, chOut.visited, code :: chOut.trace⟩, ?_,
        fun x hx => s1 (List.mem_cons_of_mem code hx), ?_, ?_, s4, ?_,
        s1 (List.mem_cons_self code visited)⟩
      · simp [walkFuel, hvoc, List.contains, List.elem_iff, hmem, gwOfGraph, hch]
      · refine List.Nodup.cons ?_ s2
        intro hin
        exact (s3 code hin).1 (List.mem_cons_self code visited)
      · intro x hx
        rcases List.mem_cons.mp hx with hx | hx
        · subst hx; exact ⟨hmem, s1 (List.mem_cons_self x visited)⟩
        · exact ⟨fun hv => (s3 x hx).1 (List.mem_cons_of_mem code hv), (s3 x hx).2⟩
      · intro c hc
        obtain ⟨hc1, hc2⟩ := s5 c hc
        rw [List.mem_cons] at hc1
        push_neg at hc1
        exact ⟨hc1.2, hc1.1, hc2⟩

/-- C3: for every non-drug vocabulary (recursive mode) and every finite
descendant graph, including graphs containing cycles, the recursive
descendant walk with its visited set terminates on a computable fuel
bound, each code is emitted in the result at most once (the emitted code
list has no duplicates), and each code is recursed into at most once (the
trace of descendant-fetch calls has no duplicates). -/
theorem walker_cycle_safety (g : Graph) (vocab root : Str)
    (hvoc : ¬ vocab = str "RXNORM") :
    ∃ out, walkFuel (gwOfGraph g) vocab (fuelBound g) root [] = some out ∧
      (out.recs.map SrcRec.code).Nodup ∧ out.trace.Nodup := by
  have hcnt : countNew g [] + 1 < fuelBound g := by
    have h := List.length_filter_le
      (fun c => ! (([] : List Str).contains c)) (childCodes g)
    unfold countNew fuelBound
    omega
  obtain ⟨out, hout, hpost⟩ :=
    walk_spec g vocab hvoc (fuelBound g) root [] (Or.inr hcnt)
  exact ⟨out, hout, hpost.2.2.2.1, hpost.2.1⟩

/-- A concrete two-node cyclic graph: A lists B as a child and B lists A. -/
def gCyc : Graph :=
  [(str "A", [⟨str "B", [], str "node b", []⟩]),
   (str "B", [⟨str "A", [], str "node a", []⟩])]

/-- Witness: the cycle-safety theorem applied to the concrete cyclic
graph gCyc with the SNOMED vocabulary. -/
theorem walker_cycle_safety_witness :
    (¬ str "SNOMEDCT_US" = str "RXNORM") ∧
    (∃ out, walkFuel (gwOfGraph gCyc) (str "SNOMEDCT_US") (fuelBound gCyc)
        (str "A") [] = some out ∧
      (out.recs.map SrcRec.code).Nodup ∧ out.trace.Nodup) :=
  ⟨by decide, walker_cycle_safety gCyc (str "SNOMEDCT_US") (str "A") (by decide)⟩

/-- C4: for the drug vocabulary RXNORM the walker performs exactly one
descendant-fetch gateway call (its trace is exactly the root code), never
recurses and leaves the visited set untouched, returning the related
codes of that single call directly — for every gateway response and every
positive fuel, hence regardless of the size of the related-concept
graph. -/
theorem rxnorm_flat_single_call (gw : DescGw) (fuel : Nat) (root : Str)
    (visited : List Str) :
    walkFuel gw (str "RXNORM") (fuel + 1) root visited =
      some ⟨(match gw (str "RXNORM") root with
             | .error _ => []
             | .ok descs =>
               descs.map (fun d => ⟨str "RXNORM", jsOr d.code d.ui, d.name, d.termType⟩)),
            visited, [root]⟩ := by
  unfold walkFuel
  rw [if_pos rfl]
  cases gw (str "RXNORM") root <;> rfl

/-! The API layer: ancestors and descendants (api.ts) -/

/-- One HTTP response of the UMLS ancestors or descendants endpoint:
success carries data.result already defaulted to the empty list, notFound
is HTTP status 404, errStatus is any other non-ok status (with its status
text). -/
inductive ApiResp where
  | ok (results : List DescNode)
  | notFound
  | errStatus (statusText : Str)

/-- getAncestors: a 404 yields the empty list (a root concept has no
ancestors), any other non-ok status throws, success yields data.result. -/
def getAncestorsM (resp : ApiResp) : Except Str (List DescNode) :=
  match resp with
  | .ok results => .ok results
  | .notFound => .ok []
  | .errStatus st => .error (str "Failed to fetch ancestors: " ++ st)

/-- The fixed page size of getDescendants. -/
def descPageSize : Nat := 5000

/-- The fixed page ceiling of getDescendants. -/
def descMaxPages : Nat := 20

/-- The pagination loop of getDescendants over a schedule of page
responses: stop with the accumulated results on an empty page, on a short
page, on a 404, or when the incremented page number would exceed the page
ceiling; any other non-ok status throws.  The fuel starts at the page
ceiling, which the loop can never exhaust. -/
def descLoop (pages : Nat → ApiResp) : Nat → Nat → List DescNode →
    Except Str (List DescNode)
  | 0, _, acc => .ok acc
  | fuel + 1, pageNumber, acc =>
    match pages pageNumber with
    | .notFound => .ok acc
    | .errStatus st => .error (str "Failed to fetch descendants: " ++ st)
    | .ok results =>
      if results.length = 0 then .ok acc
      else
        let acc2 := acc ++ results
        if results.length < descPageSize then .ok acc2
        else if pageNumber + 1 > descMaxPages then .ok acc2
        else descLoop pages fuel (pageNumber + 1) acc2

/-- One concept property of an RxNav related-concepts response. -/
structure RxConceptProp where
  rxcui : Str
  name : Str
  tty : Str
deriving DecidableEq

/-- The single RxNav related-concepts response behind
getRxNormDescendants: either a failed request (any non-ok status or a
thrown error, both caught) or the conceptGroup lists. -/
inductive RxResp where
  | fail
  | ok (conceptGroups : List (List RxConceptProp))

/-- getRxNormDescendants: one RxNav call; every failure is caught and
yields the empty list; on success the concept groups are flattened into
nodes whose ui and code are both the rxcui. -/
def getRxNormDescendantsM (resp : RxResp) : List DescNode :=
  match resp with
  | .fail => []
  | .ok groups =>
    (groups.map (fun concepts =>
      concepts.map (fun c => DescNode.mk c.rxcui c.rxcui c.name c.tty))).flatten

/-- getDescendants: RXNORM delegates to the single RxNav call and never
errors; every other vocabulary runs the pagination loop from page 1. -/
def getDescendantsM (vocab : Str) (rx : RxResp) (pages : Nat → ApiResp) :
    Except Str (List DescNode) :=
  if vocab = str "RXNORM" then .ok (getRxNormDescendantsM rx)
  else descLoop pages descMaxPages 1 []

/-- A concrete descendant node for the pagination counterexample. -/
def nodeX : DescNode := ⟨str "X", str "X", str "leaf", []⟩

/-- C7 counterexample: when the first descendants page is full (exactly
the page size) and the second page reports not-found (404), the gateway
returns the 5000 accumulated descendants of the first page — a non-empty
sequence — so a not-found response does not always yield an empty
result. -/
theorem notfound_nonempty_counterexample :
    getDescendantsM (str "SNOMEDCT_US") .fail
        (fun n => if n = 1 then .ok (List.replicate 5000 nodeX) else .notFound) =
      .ok (List.replicate 5000 nodeX) ∧
    List.replicate 5000 nodeX ≠ ([] : List DescNode) := by
  constructor
  · have hlen : (List.replicate 5000 nodeX).length = 5000 :=
      List.length_replicate 5000 nodeX
    unfold getDescendantsM
    rw [if_neg (by decide)]
    show descLoop _ (19 + 1) 1 [] = _
    rw [descLoop]
    dsimp only
    rw [if_pos rfl]
    dsimp only
    rw [hlen, if_neg (by decide : ¬ (5000 = 0)),
      if_neg (by decide : ¬ (5000 < descPageSize)),
      if_neg (by decide : ¬ (1 + 1 > descMaxPages)), List.nil_append]
    show descLoop _ (18 + 1) 2 _ = _
    rw [descLoop]
    dsimp only
    rw [if_neg (by decide : ¬ ((2 : Nat) = 1))]
  · intro h
    have h2 := congrArg List.length h
    rw [List.length_replicate, List.length_nil] at h2
    omega

/-- descLoop never exhausts its fuel, never errors and accumulates
monotonically when no page reports a hard error; stated here in the form
needed for the amended C7. -/
lemma descLoop_notFound (pages : Nat → ApiResp) :
    ∀ (fuel pn : Nat) (acc : List DescNode), pages pn = .notFound →
      descLoop pages (fuel + 1) pn acc = .ok acc := by
  intro fuel pn acc h
  rw [descLoop, h]

lemma descLoop_no_error (pages : Nat → ApiResp)
    (hp : ∀ n st, ¬ pages n = .errStatus st) :
    ∀ (fuel pn : Nat) (acc : List DescNode),
      ∃ l, descLoop pages fuel pn acc = .ok l := by
  intro fuel
  induction fuel with
  | zero => intro pn acc; exact ⟨acc, rfl⟩
  | succ fuel ih =>
    intro pn acc
    rw [descLoop]
    cases hpn : pages pn with
    | notFound => exact ⟨acc, rfl⟩
    | errStatus st => exact absurd hpn (hp pn st)
    | ok results =>
      dsimp only
      by_cases h0 : results.length = 0
      · exact ⟨acc, by rw [if_pos h0]⟩
      · rw [if_neg h0]
        by_cases h1 : results.length < descPageSize
        · exact ⟨acc ++ results, by rw [if_pos h1]⟩
        · rw [if_neg h1]
          by_cases h2 : pn + 1 > descMaxPages
          · exact ⟨acc ++ results, by rw [if_pos h2]⟩
          · rw [if_neg h2]; exact ih (pn + 1) (acc ++ results)

/-- C7 amended: a not-found (404) response is never surfaced as an
error.  getAncestors maps a 404 to the empty list; getDescendants on a
404 stops paging and returns the descendants accumulated from the earlier
pages — in particular the empty list when the very first page reports
not-found — and, as long as no page reports a status other than ok or
not-found, the operation never errors (the RXNORM branch never errors at
all). -/
theorem notfound_normalized (vocab : Str) (rx : RxResp)
    (pages : Nat → ApiResp) (hvoc : ¬ vocab = str "RXNORM")
    (h1 : pages 1 = .notFound) (hp : ∀ n st, ¬ pages n = .errStatus st) :
    getAncestorsM .notFound = .ok ([] : List DescNode) ∧
    getDescendantsM vocab rx pages = .ok ([] : List DescNode) ∧
    (∀ (fuel pn : Nat) (acc : List DescNode), pages pn = .notFound →
      descLoop pages (fuel + 1) pn acc = .ok acc) ∧
    (∃ l, getDescendantsM vocab rx pages = .ok l) ∧
    (∀ rx2 : RxResp, ∃ l, getDescendantsM (str "RXNORM") rx2 pages = .ok l) := by
  refine ⟨rfl, ?_, descLoop_notFound pages, ?_, ?_⟩
  · unfold getDescendantsM
    rw [if_neg hvoc]
    exact descLoop_notFound pages 19 1 [] h1
  · unfold getDescendantsM
    rw [if_neg hvoc]
    exact descLoop_no_error pages hp descMaxPages 1 []
  · intro rx2
    exact ⟨getRxNormDescendantsM rx2, by unfold getDescendantsM; rw [if_pos rfl]⟩

/-- Witness for notfound_normalized: a concrete schedule where every page
reports not-found. -/
theorem notfound_normalized_witness :
    (¬ str "ICD10CM" = str "RXNORM") ∧
    ((fun _ : Nat => ApiResp.notFound) 1 = .notFound) ∧
    (getAncestorsM .notFound = .ok ([] : List DescNode) ∧
     getDescendantsM (str "ICD10CM") .fail (fun _ => .notFound) =
        .ok ([] : List DescNode) ∧
     (∀ (fuel pn : Nat) (acc : List DescNode),
        (fun _ : Nat => ApiResp.notFound) pn = .notFound →
        descLoop (fun _ => .notFound) (fuel + 1) pn acc = .ok acc) ∧
     (∃ l, getDescendantsM (str "ICD10CM") .fail (fun _ => .notFound) = .ok l) ∧
     (∀ rx2 : RxResp, ∃ l,
        getDescendantsM (str "RXNORM") rx2 (fun _ => .notFound) = .ok l)) :=
  ⟨by decide, rfl,
    notfound_normalized (str "ICD10CM") .fail (fun _ => .notFound)
      (by decide) rfl (fun n st h => ApiResp.noConfusion h)⟩

/-! The RxNorm name parser (parseRxNormName, getRxNormAttributes) -/

/-- The dose-form mapping table, in the insertion order of the source
object literal: each specific form maps to a consolidated category. -/
def doseFormMapping : List (Str × Str) :=
  [(str "Chewable Tablet", str "Oral Solid"),
   (str "Disintegrating Oral Tablet", str "Oral Solid"),
   (str "Extended Release Oral Tablet", str "Oral Solid"),
   (str "Delayed Release Oral Capsule", str "Oral Solid"),
   (str "Extended Release Oral Capsule", str "Oral Solid"),
   (str "Oral Tablet", str "Oral Solid"),
   (str "Oral Capsule", str "Oral Solid"),
   (str "Oral Powder", str "Oral Solid"),
   (str "Oral Granules", str "Oral Solid"),
   (str "Sublingual Tablet", str "Oral Solid"),
   (str "Buccal Tablet", str "Oral Solid"),
   (str "Oral Lozenge", str "Oral Solid"),
   (str "Tablet", str "Oral Solid"),
   (str "Capsule", str "Oral Solid"),
   (str "Oral Solution", str "Oral Liquid"),
   (str "Oral Suspension", str "Oral Liquid"),
   (str "Oral Syrup", str "Oral Liquid"),
   (str "Oral Elixir", str "Oral Liquid"),
   (str "Oral Drops", str "Oral Liquid"),
   (str "Oral Emulsion", str "Oral Liquid"),
   (str "Injectable Solution", str "Injectable"),
   (str "Injectable Suspension", str "Injectable"),
   (str "Injection", str "Injectable"),
   (str "Prefilled Syringe", str "Injectable"),
   (str "Auto-Injector", str "Injectable"),
   (str "Cartridge", str "Injectable"),
   (str "Topical Cream", str "Topical"),
   (str "Topical Ointment", str "Topical"),
   (str "Topical Gel", str "Topical"),
   (str "Topical Lotion", str "Topical"),
   (str "Topical Solution", str "Topical"),
   (str "Topical Spray", str "Topical"),
   (str "Transdermal System", str "Topical"),
   (str "Transdermal Patch", str "Topical"),
   (str "Medicated Patch", str "Topical"),
   (str "Topical Powder", str "Topical"),
   (str "Topical Foam", str "Topical"),
   (str "Cream", str "Topical"),
   (str "Ointment", str "Topical"),
   (str "Gel", str "Topical"),
   (str "Patch", str "Topical"),
   (str "Lotion", str "Topical"),
   (str "Inhalant", str "Inhalation"),
   (str "Metered Dose Inhaler", str "Inhalation"),
   (str "Dry Powder Inhaler", str "Inhalation"),
   (str "Nasal Spray", str "Inhalation"),
   (str "Nasal Solution", str "Inhalation"),
   (str "Inhalation Solution", str "Inhalation"),
   (str "Inhalation Powder", str "Inhalation"),
   (str "Aerosol", str "Inhalation"),
   (str "Spray", str "Inhalation"),
   (str "Ophthalmic Solution", str "Ophthalmic"),
   (str "Ophthalmic Ointment", str "Ophthalmic"),
   (str "Ophthalmic Suspension", str "Ophthalmic"),
   (str "Ophthalmic Gel", str "Ophthalmic"),
   (str "Otic Solution", str "Otic"),
   (str "Otic Suspension", str "Otic"),
   (str "Rectal Suppository", str "Other"),
   (str "Vaginal Suppository", str "Other"),
   (str "Vaginal Cream", str "Other"),
   (str "Vaginal Tablet", str "Other"),
   (str "Enema", str "Other"),
   (str "Implant", str "Other"),
   (str "Suppository", str "Other"),
   (str "Powder", str "Other"),
   (str "Film", str "Other"),
   (str "Drops", str "Other"),
   (str "Solution", str "Other"),
   (str "Suspension", str "Other")]

/-- Stable insertion into a list sorted by key length, longest first;
mirrors the JavaScript stable sort with comparator b.length - a.length. -/
def insertLenDesc (p : Str × Str) : List (Str × Str) → List (Str × Str)
  | [] => [p]
  | q :: qs =>
    if q.1.length > p.1.length then q :: insertLenDesc p qs else p :: q :: qs

/-- Stable sort of the form table, longest pattern first. -/
def sortLenDesc : List (Str × Str) → List (Str × Str)
  | [] => []
  | p :: ps => insertLenDesc p (sortLenDesc ps)

/-- First form of the (sorted) table occurring as a substring of the drug
name, mapped to its consolidated category. -/
def findDoseForm : List (Str × Str) → Str → Option Str
  | [], _ => none
  | (form, category) :: rest, name =>
    if hasSub name form then some category else findDoseForm rest name

/-- JavaScript regex word characters (the class backslash-w). -/
def isWordChar (c : Char) : Bool :=
  ('A' ≤ c && c ≤ 'Z') || ('a' ≤ c && c ≤ 'z') || ('0' ≤ c && c ≤ '9') || c = '_'

/-- The unit alternatives of the strength pattern, in alternation order. -/
def unitAlts : List Str :=
  [str "MG", str "MCG", str "G", str "ML", str "L", str "%", str "UNIT",
   str "MEQ", str "MMOL", str "MG/ML", str "MCG/ML", str "MG/G", str "%"]

/-- Case-insensitive match of an uppercase pattern against the input;
returns the remaining input on success. -/
def matchPat : Str → Str → Option Str
  | s, [] => some s
  | [], _ :: _ => none
  | c :: cs, u :: us => if c.toUpper = u then matchPat cs us else none

/-- The regex word boundary after a matched unit: between the last
matched character and the rest of the input (the end of the input counts
as a non-word position). -/
def boundaryAfter (lastc : Char) : Str → Bool
  | [] => isWordChar lastc
  | n :: _ => (isWordChar lastc).xor (isWordChar n)

/-- Try the unit alternatives in order; an alternative that matches but
fails the word boundary is abandoned in favour of later alternatives,
exactly as regex alternation backtracks. -/
def tryUnits : List Str → Str → Option Str
  | [], _ => none
  | u :: us, s =>
    match matchPat s u with
    | some rest =>
      if boundaryAfter (u.getLastD ' ') rest then some u else tryUnits us s
    | none => tryUnits us s

/-- The strength pattern anchored at the current position: one or more
digits, an optional decimal part, optional whitespace, then a unit
alternative followed by a word boundary.  Returns the digit token and the
(uppercased) unit. -/
def matchStrengthAt (s : Str) : Option (Str × Str) :=
  let d := s.takeWhile Char.isDigit
  let rest := s.dropWhile Char.isDigit
  if d = [] then none
  else
    let numAndRest : Str × Str :=
      match rest with
      | '.' :: r2 =>
        let d2 := r2.takeWhile Char.isDigit
        if d2 = [] then (d, rest)
        else (d ++ '.' :: d2, r2.dropWhile Char.isDigit)
      | _ => (d, rest)
    let rest3 := numAndRest.2.dropWhile Char.isWhitespace
    match tryUnits unitAlts rest3 with
    | some u => some (numAndRest.1, u)
    | none => none

/-- The left-to-right scan of the regex search for the strength
pattern. -/
def searchStrength : Str → Option (Str × Str)
  | [] => none
  | c :: cs =>
    match matchStrengthAt (c :: cs) with
    | some r => some r
    | none => searchStrength cs

/-- The result of parseRxNormName: both fields optional. -/
structure ParsedAttrs where
  doseForm : Option Str
  strength : Option Str
deriving DecidableEq

/-- parseRxNormName: longest-substring-first dose-form lookup plus the
strength regex; the strength string joins the number and the uppercased
unit with a single space. -/
def parseRxNormName (drugName : Str) : ParsedAttrs :=
  { doseForm := findDoseForm (sortLenDesc doseFormMapping) drugName,
    strength := (searchStrength drugName).map (fun p => p.1 ++ ' ' :: p.2) }

/-- getRxNormAttributes: parse the drug name when one is given and it
yields at least one field, otherwise the empty record. -/
def getRxNormAttributes (drugName : Str) : ParsedAttrs :=
  if drugName = [] then ⟨none, none⟩
  else
    let parsed := parseRxNormName drugName
    if parsed.doseForm.isSome || parsed.strength.isSome then parsed
    else ⟨none, none⟩

/-- C8: parseRxNormName maps the name duloxetine 20 MG Delayed Release
Oral Capsule to dose form Oral Solid and strength 20 MG; and for every
input in which neither a dose form of the table nor the strength pattern
is recognizable, it returns the record with both fields absent (and, as a
total function, never throws). -/
theorem parse_doseform_strength :
    parseRxNormName (str "duloxetine 20 MG Delayed Release Oral Capsule") =
      ⟨some (str "Oral Solid"), some (str "20 MG")⟩ ∧
    (∀ s : Str, findDoseForm (sortLenDesc doseFormMapping) s = none →
      searchStrength s = none → parseRxNormName s = ⟨none, none⟩) := by
  constructor
  · decide
  · intro s h1 h2
    unfold parseRxNormName
    rw [h1, h2]
    rfl

/-- Witness for parse_doseform_strength: the second conjunct applied to a
concrete name with no recognizable dose form or strength. -/
theorem parse_doseform_strength_witness :
    (findDoseForm (sortLenDesc doseFormMapping) (str "hello") = none) ∧
    (searchStrength (str "hello") = none) ∧
    parseRxNormName (str "hello") = ⟨none, none⟩ :=
  ⟨by decide, by decide,
    parse_doseform_strength.2 (str "hello") (by decide) (by decide)⟩

/-! Code records and the export filter (getFilteredBuildCodes) -/

/-- One row of the final code set, as assembled by the build pipeline:
concept id (cui), concept name, optional atom id, code, vocabulary, term,
optional term type, public browse URL, optional drug attributes and the
optional source RxNorm code of an NDC mapping. -/
structure CodeRec where
  cui : Str
  conceptName : Str
  aui : Option Str
  code : Str
  vocabulary : Str
  term : Str
  termType : Option Str
  codeUrl : Str
  doseForm : Option Str
  strength : Option Str
  sourceRxcui : Option Str
deriving DecidableEq

/-- The free-text match of the export filter: the lowercased filter must
be a substring of the lowercased concept id, code, term or vocabulary. -/
def textMatch (searchLower : Str) (c : CodeRec) : Bool :=
  hasSub (toLowerL c.cui) searchLower || hasSub (toLowerL c.code) searchLower ||
  hasSub (toLowerL c.term) searchLower || hasSub (toLowerL c.vocabulary) searchLower

/-- Strict lexicographic comparison of embedded strings by character
code; models localeCompare of the source restricted to code-point
order. -/
def strCmpLt : Str → Str → Bool
  | [], [] => false
  | [], _ :: _ => true
  | _ :: _, [] => false
  | a :: as, b :: bs =>
    if a < b then true else if b < a then false else strCmpLt as bs

/-- The sort comparator of the export view: by vocabulary first, then by
code, non-strictly. -/
def vcLe (a b : CodeRec) : Bool :=
  if strCmpLt a.vocabulary b.vocabulary then true
  else if strCmpLt b.vocabulary a.vocabulary then false
  else ! strCmpLt b.code a.code

/-- getFilteredBuildCodes: apply the free-text filter only when the
trimmed filter text has at least three characters (matching against the
lowercased untrimmed text), then the vocabulary allow-list when it is
non-empty, then sort by vocabulary and code. -/
def getFilteredBuildCodes (allCodes : List CodeRec) (buildFilterText : Str)
    (buildFilterVocabularies : List Str) : List CodeRec :=
  let filtered :=
    if 3 ≤ (trimL buildFilterText).length then
      allCodes.filter (fun c => textMatch (toLowerL buildFilterText) c)
    else allCodes
  let filtered2 :=
    if 0 < buildFilterVocabularies.length then
      filtered.filter (fun c => buildFilterVocabularies.contains c.vocabulary)
    else filtered
  List.insertionSort (fun a b => vcLe a b = true) filtered2

lemma strCmpLt_irrefl : ∀ x : Str, strCmpLt x x = false := by
  intro x
  induction x with
  | nil => rfl
  | cons a as ih => simp [strCmpLt, lt_irrefl, ih]

lemma strCmpLt_trans :
    ∀ {x y z : Str}, strCmpLt x y = true → strCmpLt y z = true →
      strCmpLt x z = true := by
  intro x
  induction x with
  | nil =>
    intro y z hxy hyz
    cases y with
    | nil => simp [strCmpLt] at hxy
    | cons b bs =>
      cases z with
      | nil => simp [strCmpLt] at hyz
      | cons c cs => rfl
  | cons a as ih =>
    intro y z hxy hyz
    cases y with
    | nil => simp [strCmpLt] at hxy
    | cons b bs =>
      cases z with
      | nil => simp [strCmpLt] at hyz
      | cons c cs =>
        simp only [strCmpLt] at hxy hyz ⊢
        rcases lt_trichotomy a b with hab | hab | hab
        · rcases lt_trichotomy b c with hbc | hbc | hbc
          · simp [lt_trans hab hbc]
          · subst hbc; simp [hab]
          · rcases lt_trichotomy a c with hac | hac | hac
            · simp [hac]
            · subst hac
              rw [if_neg (lt_asymm hab), if_pos hab] at hyz
              simp at hyz
            · rw [if_neg (lt_asymm hbc), if_pos hbc] at hyz
              simp at hyz
        · subst hab
          rw [if_neg (lt_irrefl a), if_neg (lt_irrefl a)] at hxy
          rcases lt_trichotomy a c with hac | hac | hac
          · simp [hac]
          · subst hac
            rw [if_neg (lt_irrefl a), if_neg (lt_irrefl a)] at hyz ⊢
            exact ih hxy hyz
          · rw [if_neg (lt_asymm hac), if_pos hac] at hyz
            simp at hyz
        · rw [if_neg (lt_asymm hab), if_pos hab] at hxy
          simp at hxy

lemma strCmpLt_asymm :
    ∀ {x y : Str}, strCmpLt x y = true → strCmpLt y x = false := by
  intro x y h
  cases hyx : strCmpLt y x
  · rfl
  · have h2 := strCmpLt_trans h hyx
    rw [strCmpLt_irrefl] at h2
    exact absurd h2 (by simp)

lemma strCmpLt_eq_of_not :
    ∀ {x y : Str}, strCmpLt x y = false → strCmpLt y x = false → x = y := by
  intro x
  induction x with
  | nil =>
    intro y hxy _
    cases y with
    | nil => rfl
    | cons b bs => simp [strCmpLt] at hxy
  | cons a as ih =>
    intro y hxy hyx
    cases y with
    | nil => simp [strCmpLt] at hyx
    | cons b bs =>
      simp only [strCmpLt] at hxy hyx
      rcases lt_trichotomy a b with hab | hab | hab
      · rw [if_pos hab] at hxy; simp at hxy
      · subst hab
        rw [if_neg (lt_irrefl a), if_neg (lt_irrefl a)] at hxy hyx
        rw [ih hxy hyx]
      · rw [if_pos hab] at hyx; simp at hyx

lemma strCmpLt_not_lt_trans {a b c : Str} (hba : strCmpLt b a = false)
    (hcb : strCmpLt c b = false) : strCmpLt c a = false := by
  cases hca : strCmpLt c a
  · rfl
  · cases hab : strCmpLt a b
    · have := strCmpLt_eq_of_not hab hba
      subst this
      rw [hca] at hcb
      exact hcb
    · have h2 := strCmpLt_trans hca hab
      rw [h2] at hcb
      exact hcb

lemma vcLe_total : ∀ a b : CodeRec, vcLe a b = true ∨ vcLe b a = true := by
  intro a b
  unfold vcLe
  cases hv : strCmpLt a.vocabulary b.vocabulary
  · cases hv2 : strCmpLt b.vocabulary a.vocabulary
    · cases hc : strCmpLt b.code a.code
      · left; simp [hv, hv2, hc]
      · right
        have hc2 := strCmpLt_asymm hc
        simp [hv, hv2, hc2]
    · right; simp [hv2]
  · left; simp [hv]

lemma vcLe_trans : ∀ a b c : CodeRec, vcLe a b = true → vcLe b c = true →
    vcLe a c = true := by
  intro a b c hab hbc
  unfold vcLe at hab hbc ⊢
  cases hv1 : strCmpLt a.vocabulary b.vocabulary <;>
    cases hv2 : strCmpLt b.vocabulary c.vocabulary
  · rw [hv1] at hab
    rw [hv2] at hbc
    simp only [if_neg Bool.false_ne_true] at hab hbc
    cases hv1b : strCmpLt b.vocabulary a.vocabulary
    · cases hv2b : strCmpLt c.vocabulary b.vocabulary
      · have he1 := strCmpLt_eq_of_not hv1 hv1b
        have he2 := strCmpLt_eq_of_not hv2 hv2b
        rw [hv1b] at hab
        rw [hv2b] at hbc
        simp only [if_neg Bool.false_ne_true, Bool.not_eq_true'] at hab hbc
        have hac : strCmpLt a.vocabulary c.vocabulary = false := by
          rw [he1, he2]; exact strCmpLt_irrefl _
        have hca : strCmpLt c.vocabulary a.vocabulary = false := by
          rw [he1, he2]; exact strCmpLt_irrefl _
        have hcc := strCmpLt_not_lt_trans hab hbc
        simp [hac, hca, hcc]
      · rw [hv2b] at hbc; simp at hbc
    · rw [hv1b] at hab; simp at hab
  · rw [hv1] at hab
    simp only [if_neg Bool.false_ne_true] at hab
    cases hv1b : strCmpLt b.vocabulary a.vocabulary
    · have he1 := strCmpLt_eq_of_not hv1 hv1b
      have : strCmpLt a.vocabulary c.vocabulary = true := by rw [he1]; exact hv2
      simp [this]
    · rw [hv1b] at hab; simp at hab
  · rw [hv2] at hbc
    simp only [if_neg Bool.false_ne_true] at hbc
    cases hv2b : strCmpLt c.vocabulary b.vocabulary
    · have he2 := strCmpLt_eq_of_not hv2 hv2b
      have : strCmpLt a.vocabulary c.vocabulary = true := by rw [← he2]; exact hv1
      simp [this]
    · rw [hv2b] at hbc; simp at hbc
  · have := strCmpLt_trans hv1 hv2
    simp [this]

/-- C9: with an empty vocabulary allow-list, a free-text filter whose
trimmed length is below three characters applies no text filtering — the
result is a permutation of all records — while a filter of three or more
characters keeps exactly the records whose lowercased concept id, code,
term or vocabulary contains the lowercased filter; and the result is
sorted by vocabulary, then code, ascending. -/
theorem export_filter_semantics (codes : List CodeRec) (txt : Str) :
    ((trimL txt).length < 3 →
      (getFilteredBuildCodes codes txt []).Perm codes) ∧
    (3 ≤ (trimL txt).length →
      (getFilteredBuildCodes codes txt []).Perm
        (codes.filter (fun c => textMatch (toLowerL txt) c))) ∧
    List.Sorted (fun a b => vcLe a b = true)
      (getFilteredBuildCodes codes txt []) := by
  haveI hinst1 : IsTotal CodeRec (fun a b => vcLe a b = true) := ⟨vcLe_total⟩
  haveI hinst2 : IsTrans CodeRec (fun a b => vcLe a b = true) := ⟨vcLe_trans⟩
  unfold getFilteredBuildCodes
  simp only [List.length_nil, lt_self_iff_false, if_false]
  refine ⟨?_, ?_, List.sorted_insertionSort _ _⟩
  · intro h
    rw [if_neg (by omega)]
    exact List.perm_insertionSort _ codes
  · intro h
    rw [if_pos h]
    exact List.perm_insertionSort _ _

/-- A sample record for the filter witness. -/
def mkRecW (v c : Str) : CodeRec :=
  ⟨str "C1", str "n", none, c, v, str "t", none, str "u", none, none, none⟩

/-- A two-record sample code set for the filter witness. -/
def cW : List CodeRec :=
  [mkRecW (str "SNOMEDCT_US") (str "111"), mkRecW (str "ICD10CM") (str "A0")]

/-- Witness for export_filter_semantics: the filter snom applied to the
two-record sample. -/
theorem export_filter_semantics_witness :
    (3 ≤ (trimL (str "snom")).length) ∧
    (getFilteredBuildCodes cW (str "snom") []).Perm
      (cW.filter (fun c => textMatch (toLowerL (str "snom")) c)) ∧
    List.Sorted (fun a b => vcLe a b = true)
      (getFilteredBuildCodes cW (str "snom") []) :=
  ⟨by decide, (export_filter_semantics cW (str "snom")).2.1 (by decide),
    (export_filter_semantics cW (str "snom")).2.2⟩

/-! The pre-flight estimator (estimateDescendantCount, handleBuildClick) -/

/-- The decision taken by handleBuildClick after the pre-flight
estimate. -/
inductive BuildDecision where
  | showWarning
  | buildDirectly
deriving DecidableEq

/-- estimateDescendantCount: the length of the immediate-descendants
response; any fetch error is caught and yields 0, so the estimator is
total and never throws. -/
def estimateDescendantCount (fetched : Except Str (List DescNode)) : Nat :=
  match fetched with
  | .ok l => l.length
  | .error _ => 0

/-- The warning threshold of handleBuildClick. -/
def WARNING_THRESHOLD : Nat := 100

/-- The pre-build size check of handleBuildClick: show the warning modal
only when the estimate exceeds the threshold, otherwise proceed directly
with the build. -/
def handleBuildClickDecision (estimate : Nat) : BuildDecision :=
  if estimate > WARNING_THRESHOLD then .showWarning else .buildDirectly

/-- C10: the pre-flight estimator never throws — a failed descendant
fetch is caught and yields the estimate 0 — and the size check then
treats the failed estimate as below the warning threshold and proceeds
directly to the full build without the size-warning confirmation, so the
error branch of the caller is unreachable. -/
theorem estimate_never_fails (e : Str) :
    estimateDescendantCount (.error e) = 0 ∧
    handleBuildClickDecision (estimateDescendantCount (.error e)) =
      .buildDirectly :=
  ⟨rfl, rfl⟩

/-! The concept reconciler (convertSourceCodesToCUIs) -/

/-- Response of the atoms sub-resource fetch inside the reconciler:
either a non-ok status or the list of concept URIs of the returned atoms
(the first one is the one used; the empty string stands for an absent
concept field). -/
inductive AtomsResp where
  | fail
  | ok (conceptUris : List Str)
deriving DecidableEq

/-- Response of the source-code-asserted-identifier fetch: a non-ok
status or a thrown error (both skip the code), a NONE atoms reference, or
the atoms sub-resource response. -/
inductive SaiResp where
  | fail
  | atomsNone
  | atoms (resp : AtomsResp)
deriving DecidableEq

/-- JavaScript Set.add: insertion order, no duplicates. -/
def setAdd (s : List Str) (x : Str) : List Str :=
  if s.contains x then s else s ++ [x]

/-- One iteration of convertSourceCodesToCUIs: follow the source record
to its atoms, take the first atom's concept URI, extract its last path
segment and keep it only when it is non-empty and starts with C. -/
def convertStep (lookup : Str → Str → SaiResp) (cuis : List Str)
    (sc : SrcRec) : List Str :=
  match lookup sc.vocabulary sc.code with
  | .fail => cuis
  | .atomsNone => cuis
  | .atoms .fail => cuis
  | .atoms (.ok []) => cuis
  | .atoms (.ok (uri :: _)) =>
    let cui := lastSegment uri
    if ¬ cui = [] ∧ startsWithL cui (str "C") = true then setAdd cuis cui
    else cuis

/-- convertSourceCodesToCUIs: sequential reconciliation of source codes
into a set of concept ids; per-code failures are skipped. -/
def convertSourceCodesToCUIs (lookup : Str → Str → SaiResp)
    (sourceCodes : List SrcRec) : List Str :=
  sourceCodes.foldl (convertStep lookup) []

/-- Modelled from the spec words (for comparison only, not from the
source): the expected concept-id shape, a leading C followed by
digits. -/
def specCuiShape (s : Str) : Bool :=
  match s with
  | [] => false
  | c :: rest => (c = 'C') && (! rest.isEmpty) && rest.all Char.isDigit

/-- A reconciler environment whose first atom's concept URI ends in a
segment that starts with C but is not followed by digits. -/
def envCuiShape : Str → Str → SaiResp := fun _ _ => .atoms (.ok [str "x/Cfoo"])

/-- A source-code record used by the reconciler counterexamples. -/
def srcRecCui : SrcRec := ⟨str "SNOMEDCT_US", str "123", str "t", []⟩

/-- C6 counterexample: the reconciler accumulates the extracted value
Cfoo, which starts with C but is not a leading C followed by digits, so
not every accumulated concept id matches the concept-id shape. -/
theorem cui_shape_counterexample :
    convertSourceCodesToCUIs envCuiShape [srcRecCui] = [str "Cfoo"] ∧
    specCuiShape (str "Cfoo") = false :=
  ⟨by decide, by decide⟩

lemma mem_setAdd {s : List Str} {x y : Str} (h : y ∈ setAdd s x) :
    y ∈ s ∨ y = x := by
  unfold setAdd at h
  by_cases hc : s.contains x = true
  · rw [if_pos hc] at h; exact Or.inl h
  · rw [if_neg hc] at h
    rcases List.mem_append.mp h with h | h
    · exact Or.inl h
    · exact Or.inr (List.mem_singleton.mp h)

/-- C6 amended: every concept id accumulated by the reconciler is
non-empty and starts with C; extracted values that are empty or do not
start with C are discarded and never enter the returned set (the source
checks only the leading C, not that digits follow). -/
theorem cui_startswith_C (lookup : Str → Str → SaiResp)
    (sourceCodes : List SrcRec) (c : Str)
    (hc : c ∈ convertSourceCodesToCUIs lookup sourceCodes) :
    ¬ c = [] ∧ startsWithL c (str "C") = true := by
  have haux : ∀ (l : List SrcRec) (acc : List Str),
      (∀ y ∈ acc, ¬ y = [] ∧ startsWithL y (str "C") = true) →
      ∀ y ∈ l.foldl (convertStep lookup) acc,
        ¬ y = [] ∧ startsWithL y (str "C") = true := by
    intro l
    induction l with
    | nil => intro acc hacc y hy; exact hacc y hy
    | cons sc l ih =>
      intro acc hacc y hy
      rw [List.foldl_cons] at hy
      refine ih (convertStep lookup acc sc) ?_ y hy
      intro z hz
      unfold convertStep at hz
      rcases hlk : lookup sc.vocabulary sc.code with _ | _ | resp
      · rw [hlk] at hz; exact hacc z hz
      · rw [hlk] at hz; exact hacc z hz
      · rcases resp with _ | uris
        · rw [hlk] at hz; exact hacc z hz
        · rcases uris with _ | ⟨uri, rest⟩
          · rw [hlk] at hz; exact hacc z hz
          · rw [hlk] at hz
            dsimp only at hz
            by_cases hcond : ¬ lastSegment uri = [] ∧
                startsWithL (lastSegment uri) (str "C") = true
            · rw [if_pos hcond] at hz
              rcases mem_setAdd hz with hz | hz
              · exact hacc z hz
              · subst hz; exact hcond
            · rw [if_neg hcond] at hz; exact hacc z hz
  exact haux sourceCodes [] (by simp) c hc

/-- A reconciler environment yielding the concept id C42. -/
def envCuiOk : Str → Str → SaiResp := fun _ _ => .atoms (.ok [str "y/C42"])

/-- Witness for cui_startswith_C at a concrete environment. -/
theorem cui_startswith_C_witness :
    (str "C42" ∈ convertSourceCodesToCUIs envCuiOk [srcRecCui]) ∧
    (¬ str "C42" = ([] : Str) ∧ startsWithL (str "C42") (str "C") = true) :=
  ⟨by decide, cui_startswith_C envCuiOk [srcRecCui] (str "C42") (by decide)⟩

/-! The build pipeline (handleBuildFromHierarchyNode) -/

/-- An atom as returned by getConceptDetails before post-processing:
atom id, raw code field, display name and vocabulary abbreviation. -/
structure AtomR where
  ui : Str
  code : Str
  name : Str
  rootSource : Str
deriving DecidableEq

/-- The actualCode computed by getConceptDetails: the last URL segment
when the raw code field is a URL, the raw code otherwise. -/
def actualCode (a : AtomR) : Str :=
  if startsWithL a.code (str "http") then lastSegment a.code else a.code

/-- The code used at the call sites: atom.actualCode falling back to
atom.code. -/
def effCode (a : AtomR) : Str := jsOr (actualCode a) a.code

/-- The result of getConceptDetails: the concept name and the processed
atom list. -/
structure ConceptDetailsR where
  name : Str
  atoms : List AtomR
deriving DecidableEq

/-- One product code returned by getRxNormToNDC. -/
structure NdcItem where
  ui : Str
  code : Str
deriving DecidableEq

/-- The oracle environment of one build run: concept-details fetches
(which may fail), the descendants gateway, the source-code lookup of the
reconciler and the RxNorm-to-NDC mapping (which never throws). -/
structure BuildEnv where
  conceptDetails : Str → List Str → Except Unit ConceptDetailsR
  descGw : DescGw
  srcLookup : Str → Str → SaiResp
  rxNdc : Str → Str → List NdcItem

/-- The five build domains. -/
inductive BuildDomain where
  | condition
  | observation
  | drug
  | measurement
  | procedure
deriving DecidableEq

/-- The standard vocabulary of each domain. -/
def STANDARD_VOCABULARIES : BuildDomain → Str
  | .condition => str "SNOMEDCT_US"
  | .drug => str "RXNORM"
  | .measurement => str "LNC"
  | .procedure => str "SNOMEDCT_US"
  | .observation => str "SNOMEDCT_US"

/-- The target vocabulary set of each domain. -/
def BUILD_DOMAIN_VOCABULARIES : BuildDomain → List Str
  | .condition => [str "ICD10CM", str "SNOMEDCT_US", str "ICD9CM"]
  | .observation =>
    [str "ICD10CM", str "SNOMEDCT_US", str "LNC", str "CPT", str "HCPCS"]
  | .drug =>
    [str "NDC", str "RXNORM", str "CPT", str "CVX", str "HCPCS", str "ATC"]
  | .measurement => [str "LNC", str "CPT", str "SNOMEDCT_US", str "HCPCS"]
  | .procedure =>
    [str "CPT", str "HCPCS", str "SNOMEDCT_US", str "ICD9PCS", str "LNC",
     str "ICD10PCS"]

/-- The vocabularies that support hierarchy expansion. -/
def HIERARCHICAL_VOCABULARIES : List Str :=
  [str "SNOMEDCT_US", str "ICD10CM", str "ICD9CM", str "RXNORM", str "ATC",
   str "LNC", str "ICD10PCS"]

/-- A hierarchy node of the build view (ui, code, name, vocabulary). -/
structure BNode where
  ui : Str
  code : Str
  name : Str
  rootSource : Str
deriving DecidableEq

/-- The abort message of the standard-vocabulary gate, naming the
missing standard vocabulary. -/
def noStdVocabMsg (standardVocab : Str) : Str :=
  str "No " ++ standardVocab ++
    str " code found for this concept. Cannot build comprehensive code set. Please select a different atom."

/-- Stage 1 of the build, the standard-vocabulary gate: when the node is
not from the standard vocabulary, look the selected concept up in the
standard vocabulary and re-anchor to its first atom; abort with the
user-facing message when the lookup succeeds but yields no atoms;
continue with the original vocabulary when no concept id is available or
the lookup throws. -/
def stage1Anchor (env : BuildEnv) (node : BNode) (hierVocab : Str)
    (selectedCui : Option Str) (standardVocab : Str) :
    Except Str (Str × Str × BNode) :=
  let buildVocabulary := jsOr node.rootSource hierVocab
  let buildCode := jsOr node.code node.ui
  if buildVocabulary = standardVocab then .ok (buildVocabulary, buildCode, node)
  else
    match selectedCui with
    | none => .ok (buildVocabulary, buildCode, node)
    | some cui =>
      match env.conceptDetails cui [standardVocab] with
      | .error _ => .ok (buildVocabulary, buildCode, node)
      | .ok cd =>
        match cd.atoms with
        | [] => .error (noStdVocabMsg standardVocab)
        | standardAtom :: _ =>
          let c := effCode standardAtom
          .ok (standardAtom.rootSource, c,
            ⟨standardAtom.ui, c, standardAtom.name, standardAtom.rootSource⟩)

/-- The walker applied inside the build, started with an empty visited
set; running out of fuel (which walker_cycle_safety excludes for
sufficient fuel) yields no records. -/
def walkRecs (env : BuildEnv) (fuel : Nat) (vocab code : Str) : List SrcRec :=
  match walkFuel env.descGw vocab fuel code [] with
  | some out => out.recs
  | none => []

/-- The public browse URL of a concept. -/
def publicConceptUrl (cui : Str) : Str :=
  str "https://uts.nlm.nih.gov/uts/umls/concept/" ++ cui

/-- Stage 4 of the build: for every resolved concept id, fetch its atoms
restricted to the target vocabularies (skipping failed fetches) and emit
one code record per atom, with drug attributes parsed from the atom name
for RXNORM and NDC atoms. -/
def crossVocabStage (env : BuildEnv) (targetVocabularies : List Str)
    (allCUIs : List Str) : List CodeRec :=
  allCUIs.foldl (fun acc cui =>
    match env.conceptDetails cui targetVocabularies with
    | .error _ => acc
    | .ok cd =>
      acc ++ cd.atoms.map (fun atom =>
        let rxAttrs : ParsedAttrs :=
          if atom.rootSource = str "RXNORM" ∨ atom.rootSource = str "NDC" then
            getRxNormAttributes atom.name
          else ⟨none, none⟩
        { cui := cui, conceptName := cd.name, aui := some atom.ui,
          code := effCode atom, vocabulary := atom.rootSource,
          term := atom.name, termType := none,
          codeUrl := publicConceptUrl cui,
          doseForm := rxAttrs.doseForm, strength := rxAttrs.strength,
          sourceRxcui := none })) []

/-- The vocabulary-and-code key used by the expansion stage and by the
final deduplication. -/
def codeKey (vocab code : Str) : Str := vocab ++ str "-" ++ code

/-- The key of a code record. -/
def recKey (r : CodeRec) : Str := codeKey r.vocabulary r.code

/-- One descendant inside stage 5: skip it when its key was already
processed, otherwise register the key, reconcile it to a concept id
(as in the reconciler, but without the NONE check, whose failing fetch is
caught the same way), fetch the concept restricted to the descendant
vocabulary and emit a record; every per-descendant failure skips only
that descendant. -/
def expandDescendant (env : BuildEnv)
    (st : List Str × List CodeRec) (desc : SrcRec) :
    List Str × List CodeRec :=
  let key := codeKey desc.vocabulary desc.code
  if st.1.contains key then st
  else
    let processed := key :: st.1
    match env.srcLookup desc.vocabulary desc.code with
    | .fail => (processed, st.2)
    | .atomsNone => (processed, st.2)
    | .atoms .fail => (processed, st.2)
    | .atoms (.ok []) => (processed, st.2)
    | .atoms (.ok (uri :: _)) =>
      let descCui := lastSegment uri
      if ¬ descCui = [] ∧ startsWithL descCui (str "C") = true then
        match env.conceptDetails descCui [desc.vocabulary] with
        | .error _ => (processed, st.2)
        | .ok cd =>
          let rxAttrs : ParsedAttrs :=
            if desc.vocabulary = str "RXNORM" then getRxNormAttributes desc.term
            else ⟨none, none⟩
          (processed, st.2 ++
            [{ cui := descCui, conceptName := cd.name, aui := none,
               code := desc.code, vocabulary := desc.vocabulary,
               term := desc.term, termType := some desc.termType,
               codeUrl := publicConceptUrl descCui,
               doseForm := rxAttrs.doseForm, strength := rxAttrs.strength,
               sourceRxcui := none }])
      else (processed, st.2)

/-- One stage-4 record inside stage 5: skip it when its key was already
processed, otherwise register the key and, when its vocabulary is
hierarchical, walk its descendants (fresh visited set) and process each
one. -/
def expandOne (env : BuildEnv) (fuel : Nat)
    (st : List Str × List CodeRec) (result : CodeRec) :
    List Str × List CodeRec :=
  let key := codeKey result.vocabulary result.code
  if st.1.contains key then st
  else
    let processed := key :: st.1
    if HIERARCHICAL_VOCABULARIES.contains result.vocabulary then
      (walkRecs env fuel result.vocabulary result.code).foldl
        (expandDescendant env) (processed, st.2)
    else (processed, st.2)

/-- Stage 5 of the build: hierarchical expansion inside the target
vocabularies, guarded by a processed-key set shared across the whole
stage. -/
def hierExpansionStage (env : BuildEnv) (fuel : Nat)
    (crossVocabResults : List CodeRec) : List CodeRec :=
  (crossVocabResults.foldl (expandOne env fuel) ([], [])).2

/-- In-place update of a JavaScript Map entry list: the first entry with
the key keeps its position but receives the new value; a missing key is
appended. -/
def mapUpsert (k : Str) (v : α) : List (Str × α) → List (Str × α)
  | [] => [(k, v)]
  | (k2, v2) :: rest =>
    if k2 = k then (k2, v) :: rest else (k2, v2) :: mapUpsert k v rest

/-- The JavaScript Map built from entries: iteration order is the order
of first insertion of each key, the value is the last one set. -/
def jsMapOf (key : α → Str) (l : List α) : List (Str × α) :=
  l.foldl (fun m x => mapUpsert (key x) x m) []

/-- Array.from(new Map(l.map(x => [key(x), x])).values()). -/
def dedupLastWins (key : α → Str) (l : List α) : List α :=
  (jsMapOf key l).map (fun p => p.2)

/-- Stage 6 of the build: when NDC is among the target vocabularies,
collect the RXNORM records produced so far, deduplicate them by drug code
through a JavaScript Map, and emit one NDC record per product code of
each remaining drug record, carrying the drug record's concept, term,
dose form and strength and tagging the source RxNorm code. -/
def ndcStage (env : BuildEnv) (targetVocabularies : List Str)
    (allCodesBeforeDedup : List CodeRec) : List CodeRec :=
  if targetVocabularies.contains (str "NDC") then
    let allRxnormCodes :=
      allCodesBeforeDedup.filter (fun item => item.vocabulary == str "RXNORM")
    let rxnormCodes := dedupLastWins (fun item => item.code) allRxnormCodes
    rxnormCodes.foldl (fun acc rx =>
      acc ++ (env.rxNdc rx.code rx.cui).map (fun ndc =>
        { cui := rx.cui, conceptName := rx.conceptName, aui := some ndc.ui,
          code := ndc.code, vocabulary := str "NDC",
          term := rx.term ++ str " [" ++ ndc.code ++ str "]",
          termType := rx.termType,
          codeUrl := publicConceptUrl rx.cui,
          doseForm := rx.doseForm, strength := rx.strength,
          sourceRxcui := some rx.code })) []
  else []

/-- All intermediate stage outputs of one build run. -/
structure BuildTrace where
  buildVocabulary : Str
  buildCode : Str
  buildNode : BNode
  allCUIs : List Str
  crossVocabResults : List CodeRec
  hierarchicalExpansion : List CodeRec
  merged : List CodeRec
  uniqueCodes : List CodeRec
deriving DecidableEq

/-- The staged build: the standard-vocabulary gate, the source hierarchy
walk (with the root prepended), concept reconciliation, the target
vocabulary fetch, hierarchical expansion, the NDC mapping, and the final
Map-based deduplication of the merged record sequence. -/
def buildStages (env : BuildEnv) (node : BNode) (hierVocab : Str)
    (selectedCui : Option Str) (domainToUse : BuildDomain) (fuel : Nat) :
    Except Str BuildTrace :=
  let targetVocabularies := BUILD_DOMAIN_VOCABULARIES domainToUse
  let standardVocab := STANDARD_VOCABULARIES domainToUse
  match stage1Anchor env node hierVocab selectedCui standardVocab with
  | .error msg => .error msg
  | .ok (buildVocabulary, buildCode, buildNode) =>
    let allDescendants := walkRecs env fuel buildVocabulary buildCode
    let allSourceCodes :=
      (⟨buildVocabulary, buildCode, buildNode.name, []⟩ : SrcRec) :: allDescendants
    let allCUIs := convertSourceCodesToCUIs env.srcLookup allSourceCodes
    let crossVocabResults := crossVocabStage env targetVocabularies allCUIs
    let hierarchicalExpansion := hierExpansionStage env fuel crossVocabResults
    let allCodesBeforeDedup := crossVocabResults ++ hierarchicalExpansion
    let merged :=
      allCodesBeforeDedup ++ ndcStage env targetVocabularies allCodesBeforeDedup
    .ok { buildVocabulary := buildVocabulary, buildCode := buildCode,
          buildNode := buildNode, allCUIs := allCUIs,
          crossVocabResults := crossVocabResults,
          hierarchicalExpansion := hierarchicalExpansion,
          merged := merged, uniqueCodes := dedupLastWins recKey merged }

/-- The final artifact of one build run. -/
structure BuildResultM where
  rootNode : BNode
  vocabulary : Str
  targetVocabularies : List Str
  allCodes : List CodeRec
  totalCount : Nat
  sourceHierarchyCount : Nat
deriving DecidableEq

/-- buildCodeSet: the whole pipeline; an abort of the
standard-vocabulary gate is the only error and yields no result at
all. -/
def buildCodeSet (env : BuildEnv) (node : BNode) (hierVocab : Str)
    (selectedCui : Option Str) (domainToUse : BuildDomain) (fuel : Nat) :
    Except Str BuildResultM :=
  match buildStages env node hierVocab selectedCui domainToUse fuel with
  | .error msg => .error msg
  | .ok t =>
    .ok { rootNode := t.buildNode, vocabulary := t.buildVocabulary,
          targetVocabularies := BUILD_DOMAIN_VOCABULARIES domainToUse,
          allCodes := t.uniqueCodes, totalCount := t.uniqueCodes.length,
          sourceHierarchyCount := t.allCUIs.length }

lemma mem_keys_mapUpsert {α : Type} {k x : Str} {v : α} :
    ∀ {m : List (Str × α)},
      x ∈ (mapUpsert k v m).map (fun p => p.1) →
      x ∈ m.map (fun p => p.1) ∨ x = k := by
  intro m
  induction m with
  | nil => intro h; simp [mapUpsert] at h; exact Or.inr h
  | cons q m ih =>
    intro h
    by_cases hq : q.1 = k
    · rw [show mapUpsert k v (q :: m) = (q.1, v) :: m by
        simp [mapUpsert, hq]] at h
      rcases List.mem_cons.mp h with h | h
      · exact Or.inl (List.mem_cons.mpr (Or.inl h))
      · exact Or.inl (List.mem_cons.mpr (Or.inr h))
    · rw [show mapUpsert k v (q :: m) = q :: mapUpsert k v m by
        simp [mapUpsert, hq]] at h
      rcases List.mem_cons.mp h with h | h
      · exact Or.inl (List.mem_cons.mpr (Or.inl h))
      · rcases ih h with h | h
        · exact Or.inl (List.mem_cons.mpr (Or.inr h))
        · exact Or.inr h

lemma mapUpsert_keys_nodup {α : Type} (k : Str) (v : α) :
    ∀ {m : List (Str × α)}, (m.map (fun p => p.1)).Nodup →
      ((mapUpsert k v m).map (fun p => p.1)).Nodup := by
  intro m
  induction m with
  | nil => intro _; simp [mapUpsert]
  | cons q m ih =>
    intro h
    rw [List.map_cons, List.nodup_cons] at h
    by_cases hq : q.1 = k
    · rw [show mapUpsert k v (q :: m) = (q.1, v) :: m by simp [mapUpsert, hq]]
      rw [List.map_cons, List.nodup_cons]
      exact h
    · rw [show mapUpsert k v (q :: m) = q :: mapUpsert k v m by
        simp [mapUpsert, hq]]
      rw [List.map_cons, List.nodup_cons]
      refine ⟨?_, ih h.2⟩
      intro hmem
      rcases mem_keys_mapUpsert hmem with hmem | hmem
      · exact h.1 hmem
      · exact hq hmem

lemma mapUpsert_key_eq {α : Type} (key : α → Str) (k : Str) (v : α)
    (hk : k = key v) :
    ∀ {m : List (Str × α)}, (∀ p ∈ m, p.1 = key p.2) →
      ∀ p ∈ mapUpsert k v m, p.1 = key p.2 := by
  intro m
  induction m with
  | nil =>
    intro _ p hp
    simp [mapUpsert] at hp
    subst hp
    exact hk
  | cons q m ih =>
    intro h p hp
    by_cases hq : q.1 = k
    · rw [show mapUpsert k v (q :: m) = (q.1, v) :: m by
        simp [mapUpsert, hq]] at hp
      rcases List.mem_cons.mp hp with hp | hp
      · subst hp; rw [hq]; exact hk
      · exact h p (List.mem_cons.mpr (Or.inr hp))
    · rw [show mapUpsert k v (q :: m) = q :: mapUpsert k v m by
        simp [mapUpsert, hq]] at hp
      rcases List.mem_cons.mp hp with hp | hp
      · rw [hp]; exact h q (List.mem_cons.mpr (Or.inl rfl))
      · exact ih (fun p2 hp2 => h p2 (List.mem_cons.mpr (Or.inr hp2))) p hp

lemma jsMapFold_inv {α : Type} (key : α → Str) :
    ∀ (l : List α) (m : List (Str × α)),
      (m.map (fun p => p.1)).Nodup → (∀ p ∈ m, p.1 = key p.2) →
      ((l.foldl (fun m x => mapUpsert (key x) x m) m).map
          (fun p => p.1)).Nodup ∧
        ∀ p ∈ l.foldl (fun m x => mapUpsert (key x) x m) m, p.1 = key p.2 := by
  intro l
  induction l with
  | nil => intro m h1 h2; exact ⟨h1, h2⟩
  | cons x l ih =>
    intro m h1 h2
    rw [List.foldl_cons]
    exact ih (mapUpsert (key x) x m) (mapUpsert_keys_nodup (key x) x h1)
      (mapUpsert_key_eq key (key x) x rfl h2)

lemma dedupLastWins_keys_nodup {α : Type} (key : α → Str) (l : List α) :
    ((dedupLastWins key l).map key).Nodup := by
  obtain ⟨h1, h2⟩ := jsMapFold_inv key l [] (by simp) (by simp)
  unfold dedupLastWins jsMapOf
  rw [List.map_map]
  have heq : (jsMapOf key l).map (key ∘ fun p => p.2) =
      (jsMapOf key l).map (fun p => p.1) := by
    apply List.map_congr_left
    intro p hp
    exact (h2 p hp).symm
  unfold jsMapOf at heq
  rw [heq]
  exact h1

lemma mapUpsert_mem_strong {α : Type} {k : Str} {v : α} :
    ∀ {m : List (Str × α)}, (m.map (fun p => p.1)).Nodup →
      ∀ p ∈ mapUpsert k v m, p = (k, v) ∨ (p ∈ m ∧ ¬ p.1 = k) := by
  intro m
  induction m with
  | nil =>
    intro _ p hp
    simp [mapUpsert] at hp
    exact Or.inl hp
  | cons q m ih =>
    intro hnd p hp
    rw [List.map_cons, List.nodup_cons] at hnd
    by_cases hq : q.1 = k
    · rw [show mapUpsert k v (q :: m) = (q.1, v) :: m by
        simp [mapUpsert, hq]] at hp
      rcases List.mem_cons.mp hp with hp | hp
      · subst hp; rw [hq]; exact Or.inl rfl
      · refine Or.inr ⟨List.mem_cons.mpr (Or.inr hp), ?_⟩
        intro hpk
        apply hnd.1
        have hmm : p.1 ∈ List.map (fun p => p.1) m :=
          List.mem_map_of_mem (fun p => p.1) hp
        rwa [hpk, ← hq] at hmm
    · rw [show mapUpsert k v (q :: m) = q :: mapUpsert k v m by
        simp [mapUpsert, hq]] at hp
      rcases List.mem_cons.mp hp with hp | hp
      · subst hp; exact Or.inr ⟨List.mem_cons.mpr (Or.inl rfl), hq⟩
      · rcases ih hnd.2 p hp with hp2 | hp2
        · exact Or.inl hp2
        · exact Or.inr ⟨List.mem_cons.mpr (Or.inr hp2.1), hp2.2⟩

lemma foldl_upsert_getLast {α : Type} (key : α → Str) :
    ∀ (l : List α) (m : List (Str × α)) (processed : List α),
      (m.map (fun p => p.1)).Nodup →
      (∀ p ∈ m,
        (processed.filter (fun y => key y == p.1)).getLast? = some p.2) →
      ∀ p ∈ l.foldl (fun acc x => mapUpsert (key x) x acc) m,
        ((processed ++ l).filter (fun y => key y == p.1)).getLast? =
          some p.2 := by
  intro l
  induction l with
  | nil =>
    intro m processed _ h p hp
    rw [List.append_nil]
    exact h p hp
  | cons x l ih =>
    intro m processed hnd h p hp
    rw [List.foldl_cons] at hp
    have step : ∀ q ∈ mapUpsert (key x) x m,
        ((processed ++ [x]).filter (fun y => key y == q.1)).getLast? =
          some q.2 := by
      intro q hq
      rcases mapUpsert_mem_strong hnd q hq with hq2 | hq2
      · subst hq2
        rw [List.filter_append]
        have hx : List.filter (fun y => key y == key x) [x] = [x] := by
          simp
        rw [hx, List.getLast?_concat]
      · rw [List.filter_append]
        have hx : List.filter (fun y => key y == q.1) [x] = [] := by
          simp only [List.filter, List.filter_nil]
          have : (key x == q.1) = false := by
            rw [beq_eq_false_iff_ne]
            intro hcon
            exact hq2.2 (hcon ▸ rfl)
          rw [this]
        rw [hx, List.append_nil]
        exact h q hq2.1
    have := ih (mapUpsert (key x) x m) (processed ++ [x])
      (mapUpsert_keys_nodup (key x) x hnd) step p hp
    rwa [List.append_assoc, List.singleton_append] at this

lemma dedupLastWins_getLast {α : Type} (key : α → Str) (l : List α) :
    ∀ x ∈ dedupLastWins key l,
      (l.filter (fun y => key y == key x)).getLast? = some x := by
  intro x hx
  unfold dedupLastWins at hx
  rcases List.mem_map.mp hx with ⟨p, hp, hpx⟩
  obtain ⟨_, hkeys⟩ := jsMapFold_inv key l [] (by simp) (by simp)
  have hlast := foldl_upsert_getLast key l [] [] (by simp) (by simp) p hp
  rw [List.nil_append] at hlast
  rw [← hpx, ← hkeys p hp]
  exact hlast

lemma buildStages_unique (env : BuildEnv) (node : BNode) (hierVocab : Str)
    (selectedCui : Option Str) (domainToUse : BuildDomain) (fuel : Nat)
    (t : BuildTrace)
    (h : buildStages env node hierVocab selectedCui domainToUse fuel = .ok t) :
    t.uniqueCodes = dedupLastWins recKey t.merged := by
  unfold buildStages at h
  dsimp only at h
  rcases hs : stage1Anchor env node hierVocab selectedCui
      (STANDARD_VOCABULARIES domainToUse) with msg | anchored
  · rw [hs] at h; exact Except.noConfusion h
  · rcases anchored with ⟨bv, bc, bn⟩
    rw [hs] at h
    dsimp only at h
    injection h with h
    rw [← h]

/-- C1: for every build that returns a result, no two records of the
final code set share the same vocabulary-and-code pair: the final
Map-based deduplication keyed on vocabulary-dash-code makes the key list
of BuildResult.codes duplicate-free, which forces the pair list to be
duplicate-free as well. -/
theorem dedup_key_invariant (env : BuildEnv) (node : BNode) (hierVocab : Str)
    (selectedCui : Option Str) (domainToUse : BuildDomain) (fuel : Nat)
    (r : BuildResultM)
    (h : buildCodeSet env node hierVocab selectedCui domainToUse fuel = .ok r) :
    (r.allCodes.map (fun c => (c.vocabulary, c.code))).Nodup := by
  unfold buildCodeSet at h
  rcases hs : buildStages env node hierVocab selectedCui domainToUse fuel
      with msg | t
  · rw [hs] at h; exact Except.noConfusion h
  · rw [hs] at h
    dsimp only at h
    injection h with h
    have hall : r.allCodes = dedupLastWins recKey t.merged := by
      rw [← h]
      exact buildStages_unique env node hierVocab selectedCui domainToUse fuel t hs
    rw [hall]
    have hkeys := dedupLastWins_keys_nodup recKey t.merged
    have hmaps : (dedupLastWins recKey t.merged).map recKey =
        ((dedupLastWins recKey t.merged).map
          (fun c => (c.vocabulary, c.code))).map
            (fun pr => pr.1 ++ str "-" ++ pr.2) := by
      rw [List.map_map]
      rfl
    rw [hmaps] at hkeys
    exact List.Nodup.of_map _ hkeys

lemma isPrefixL_self_append : ∀ (p b : Str), isPrefixL p (p ++ b) = true := by
  intro p b
  induction p with
  | nil => rfl
  | cons c cs ih => simp [isPrefixL, ih]

lemma hasSub_nil_pat : ∀ hay : Str, hasSub hay [] = true := by
  intro hay
  cases hay <;> simp [hasSub, isPrefixL]

lemma hasSub_append_middle : ∀ (a p b : Str), hasSub (a ++ (p ++ b)) p = true := by
  intro a p b
  induction a with
  | nil =>
    cases p with
    | nil => exact hasSub_nil_pat b
    | cons c cs =>
      rw [List.nil_append]
      show (isPrefixL (c :: cs) (c :: cs ++ b) || _) = true
      rw [isPrefixL_self_append]
      rfl
  | cons c a ih =>
    rw [List.cons_append]
    show (isPrefixL p (c :: (a ++ (p ++ b))) || hasSub (a ++ (p ++ b)) p) = true
    rw [ih]
    exact Bool.or_true _

lemma stage1_gate (env : BuildEnv) (node : BNode) (hierVocab cui : Str)
    (standardVocab : Str) (cdName : Str)
    (hvoc : ¬ jsOr node.rootSource hierVocab = standardVocab)
    (hcd : env.conceptDetails cui [standardVocab] = .ok ⟨cdName, []⟩) :
    stage1Anchor env node hierVocab (some cui) standardVocab =
      .error (noStdVocabMsg standardVocab) := by
  unfold stage1Anchor
  dsimp only
  rw [if_neg hvoc, hcd]

/-- C2: when the root node's vocabulary is not the domain's standard
vocabulary, the concept id is known, and the standard-vocabulary lookup
succeeds but finds no atom for that concept, the whole build aborts with
the user-facing message — which contains the name of the missing standard
vocabulary — and produces no BuildResult at all, not even a partial
one. -/
theorem standard_vocab_gate (env : BuildEnv) (node : BNode) (hierVocab : Str)
    (cui : Str) (domainToUse : BuildDomain) (fuel : Nat) (cdName : Str)
    (hvoc : ¬ jsOr node.rootSource hierVocab = STANDARD_VOCABULARIES domainToUse)
    (hcd : env.conceptDetails cui [STANDARD_VOCABULARIES domainToUse] =
      .ok ⟨cdName, []⟩) :
    buildCodeSet env node hierVocab (some cui) domainToUse fuel =
      .error (noStdVocabMsg (STANDARD_VOCABULARIES domainToUse)) ∧
    hasSub (noStdVocabMsg (STANDARD_VOCABULARIES domainToUse))
      (STANDARD_VOCABULARIES domainToUse) = true := by
  constructor
  · unfold buildCodeSet buildStages
    dsimp only
    rw [stage1_gate env node hierVocab cui (STANDARD_VOCABULARIES domainToUse)
      cdName hvoc hcd]
  · exact hasSub_append_middle (str "No ") (STANDARD_VOCABULARIES domainToUse) _

/-- A build environment whose standard-vocabulary lookup succeeds with an
empty atom list. -/
def envGate : BuildEnv :=
  { conceptDetails := fun _ _ => .ok ⟨str "Migraine", []⟩,
    descGw := fun _ _ => .ok [],
    srcLookup := fun _ _ => .fail,
    rxNdc := fun _ _ => [] }

/-- An ICD10CM root node for the gate witness. -/
def nodeGate : BNode := ⟨str "A1", str "G43", str "Migraine", str "ICD10CM"⟩

/-- Witness for standard_vocab_gate: an ICD10CM node in the condition
domain whose concept has no SNOMED atom. -/
theorem standard_vocab_gate_witness :
    (¬ jsOr nodeGate.rootSource (str "ICD10CM") =
      STANDARD_VOCABULARIES .condition) ∧
    (envGate.conceptDetails (str "C0027") [STANDARD_VOCABULARIES .condition] =
      .ok ⟨str "Migraine", []⟩) ∧
    (buildCodeSet envGate nodeGate (str "ICD10CM") (some (str "C0027"))
        .condition 3 =
      .error (noStdVocabMsg (STANDARD_VOCABULARIES .condition)) ∧
    hasSub (noStdVocabMsg (STANDARD_VOCABULARIES .condition))
      (STANDARD_VOCABULARIES .condition) = true) :=
  ⟨by decide, rfl,
    standard_vocab_gate envGate nodeGate (str "ICD10CM") (str "C0027")
      .condition 3 (str "Migraine") (by decide) rfl⟩

/-- A drug-domain environment in which a direct NDC atom of stage 4 and
an RxNorm-mapped NDC record of stage 6 share the same key NDC-N1 with
different term texts. -/
def envC5 : BuildEnv :=
  { conceptDetails := fun cui _ =>
      if cui = str "C1" then
        .ok ⟨str "DrugConcept",
          [⟨str "AR", str "R1", str "DrugX", str "RXNORM"⟩,
           ⟨str "AN", str "N1", str "NDC direct", str "NDC"⟩]⟩
      else .error (),
    descGw := fun _ _ => .ok [],
    srcLookup := fun _ c =>
      if c = str "R0" then .atoms (.ok [str "u/C1"]) else .fail,
    rxNdc := fun c _ =>
      if c = str "R1" then [⟨str "NU", str "N1"⟩] else [] }

/-- The RxNorm root node of the stage-priority counterexample. -/
def nodeC5 : BNode := ⟨str "A0", str "R0", str "DrugRoot", str "RXNORM"⟩

/-- C5 counterexample: in this build the merged stage-4-to-6 sequence
holds, in order, the direct RXNORM atom, the direct NDC atom with term
NDC direct, and the drug-mapped NDC record with term DrugX [N1] — the
last two sharing the key NDC-N1.  The final code set keeps the
drug-mapped record (the last occurrence), not the direct NDC atom (the
first occurrence), so the record kept is not the first occurrence in
stage order. -/
theorem final_dedup_counterexample :
    (buildStages envC5 nodeC5 (str "RXNORM") none .drug 3).map
        (fun t => (t.merged.map (fun r => (r.vocabulary, r.code, r.term)),
                   t.uniqueCodes.map (fun r => (r.vocabulary, r.code, r.term)))) =
      .ok ([(str "RXNORM", str "R1", str "DrugX"),
            (str "NDC", str "N1", str "NDC direct"),
            (str "NDC", str "N1", str "DrugX [N1]")],
           [(str "RXNORM", str "R1", str "DrugX"),
            (str "NDC", str "N1", str "DrugX [N1]")]) := by
  rfl

/-- C5 amended: in the final deduplication, when several records of
stages 4 to 6 share the same vocabulary-and-code key, the record kept in
the final code set is the LAST occurrence in stage and processing order
(drug-mapped records overwrite hierarchically-expanded ones overwrite
direct target-vocabulary atoms), while its position is that of the key's
first occurrence. -/
theorem final_dedup_last_wins (env : BuildEnv) (node : BNode)
    (hierVocab : Str) (selectedCui : Option Str) (domainToUse : BuildDomain)
    (fuel : Nat) (t : BuildTrace) (x : CodeRec)
    (h : buildStages env node hierVocab selectedCui domainToUse fuel = .ok t)
    (hx : x ∈ t.uniqueCodes) :
    (t.merged.filter (fun y => recKey y == recKey x)).getLast? = some x := by
  rw [buildStages_unique env node hierVocab selectedCui domainToUse fuel t h]
    at hx
  exact dedupLastWins_getLast recKey t.merged x hx

/-- The record kept for the key NDC-N1 in the counterexample build: the
stage-6 drug-mapped record. -/
def recC5 : CodeRec :=
  { cui := str "C1", conceptName := str "DrugConcept", aui := some (str "NU"),
    code := str "N1", vocabulary := str "NDC", term := str "DrugX [N1]",
    termType := none, codeUrl := publicConceptUrl (str "C1"),
    doseForm := none, strength := none, sourceRxcui := some (str "R1") }

/-- The stage-4 RXNORM record of the counterexample build. -/
def recC5rx : CodeRec :=
  { cui := str "C1", conceptName := str "DrugConcept", aui := some (str "AR"),
    code := str "R1", vocabulary := str "RXNORM", term := str "DrugX",
    termType := none, codeUrl := publicConceptUrl (str "C1"),
    doseForm := none, strength := none, sourceRxcui := none }

/-- The stage-4 direct NDC record of the counterexample build. -/
def recC5ndc : CodeRec :=
  { cui := str "C1", conceptName := str "DrugConcept", aui := some (str "AN"),
    code := str "N1", vocabulary := str "NDC", term := str "NDC direct",
    termType := none, codeUrl := publicConceptUrl (str "C1"),
    doseForm := none, strength := none, sourceRxcui := none }

/-- The full stage trace of the counterexample build. -/
def traceC5 : BuildTrace :=
  { buildVocabulary := str "RXNORM", buildCode := str "R0",
    buildNode := nodeC5, allCUIs := [str "C1"],
    crossVocabResults := [recC5rx, recC5ndc],
    hierarchicalExpansion := [],
    merged := [recC5rx, recC5ndc, recC5],
    uniqueCodes := [recC5rx, recC5] }

/-- Witness for final_dedup_last_wins: in the counterexample build the
kept NDC record is the last of the two merged records with the key
NDC-N1. -/
theorem final_dedup_last_wins_witness :
    (buildStages envC5 nodeC5 (str "RXNORM") none .drug 3 = .ok traceC5) ∧
    (recC5 ∈ traceC5.uniqueCodes) ∧
    (traceC5.merged.filter (fun y => recKey y == recKey recC5)).getLast? =
      some recC5 :=
  ⟨by rfl, by decide,
    final_dedup_last_wins envC5 nodeC5 (str "RXNORM") none .drug 3 traceC5
      recC5 (by rfl) (by decide)⟩

/-- The build result of the counterexample environment, used as the C1
witness. -/
def resC5 : BuildResultM :=
  { rootNode := nodeC5, vocabulary := str "RXNORM",
    targetVocabularies := BUILD_DOMAIN_VOCABULARIES .drug,
    allCodes := [recC5rx, recC5], totalCount := 2,
    sourceHierarchyCount := 1 }

/-- Witness for dedup_key_invariant: the counterexample build succeeds
and its two final records carry distinct vocabulary-and-code pairs. -/
theorem dedup_key_invariant_witness :
    (buildCodeSet envC5 nodeC5 (str "RXNORM") none .drug 3 = .ok resC5) ∧
    (resC5.allCodes.map (fun c => (c.vocabulary, c.code))).Nodup :=
  ⟨by rfl,
    dedup_key_invariant envC5 nodeC5 (str "RXNORM") none .drug 3 resC5
      (by rfl)⟩
